import Mathlib

/-!
Verification of `backend_fastapi.py` (gutentator): a shallow embedding of the
chunk store, the Gutenberg cleanup step, the adjacent-chunk context assembler,
the ingestion route and the websocket annotation session, with theorems that
settle the frozen claims about the specification.

Strings from the Python code are modelled as `List Char`.  External
collaborators (the HTTP fetch, the LangChain splitter, the OpenAI model) are
modelled as oracle inputs, exactly at the interface the code consumes them.
-/

/-! ## Basic string machinery: prefix test, substring occurrence -/

/-- Boolean prefix test on character lists (Python `str.startswith`,
and the anchored step of regex matching). -/
def isPre : List Char → List Char → Bool
  | [], _ => true
  | _ :: _, [] => false
  | a :: as, b :: bs => if a = b then isPre as bs else false

/-- Boolean substring occurrence test (used to refute containment statements). -/
def occursB (pat : List Char) : List Char → Bool
  | [] => isPre pat []
  | c :: rest => isPre pat (c :: rest) || occursB pat rest

theorem isPre_self_append (p x : List Char) : isPre p (p ++ x) = true := by
  induction p with
  | nil => rfl
  | cons a as ih => simp [isPre, ih]

theorem occursB_of_isPre (pat s : List Char) (h : isPre pat s = true) :
    occursB pat s = true := by
  cases s with
  | nil => exact h
  | cons c rest => simp [occursB, h]

theorem occursB_of_eq_append (pat a b s : List Char)
    (h : s = a ++ (pat ++ b)) : occursB pat s = true := by
  subst h
  induction a with
  | nil => exact occursB_of_isPre pat (pat ++ b) (isPre_self_append pat b)
  | cons c a' ih => simp [occursB, ih]

/-! ## Python `str.strip` (whitespace trim, ASCII whitespace) -/

/-- Whitespace as stripped by Python `str.strip()` / accepted by `int()`
(modelled for the ASCII whitespace characters). -/
def isPyWs (c : Char) : Bool :=
  c == ' ' || c == '\t' || c == '\n' || c == '\r' || c == '\x0b' || c == '\x0c'

/-- Python `str.strip()`: drop leading and trailing whitespace. -/
def pyStrip (s : List Char) : List Char :=
  ((s.dropWhile isPyWs).reverse.dropWhile isPyWs).reverse

/-! ## Lines: split on newline, join with newline -/

/-- Prepend a character to the first line of a line list. -/
def consHead (c : Char) : List (List Char) → List (List Char)
  | [] => [[c]]
  | l :: ls => (c :: l) :: ls

/-- Split on `'\n'` keeping empty segments (Python `str.split('\n')`,
the line structure seen by the `re.MULTILINE` anchors). -/
def splitLines : List Char → List (List Char)
  | [] => [[]]
  | c :: rest => if c = '\n' then [] :: splitLines rest else consHead c (splitLines rest)

/-- Join lines back with `'\n'` (Python `'\n'.join`). -/
def joinLines : List (List Char) → List Char
  | [] => []
  | [l] => l
  | l :: l' :: ls => l ++ '\n' :: joinLines (l' :: ls)

theorem splitLines_ne_nil (s : List Char) : splitLines s ≠ [] := by
  cases s with
  | nil => simp [splitLines]
  | cons c rest =>
    simp only [splitLines]
    split
    · simp
    · cases h : splitLines rest <;> simp [consHead]

theorem splitLines_append_nl (a b : List Char) :
    splitLines (a ++ '\n' :: b) = splitLines a ++ splitLines b := by
  induction a with
  | nil => simp [splitLines]
  | cons c a' ih =>
    by_cases hc : c = '\n'
    · subst hc
      simp [splitLines, ih]
    · obtain ⟨l, ls, hl⟩ : ∃ l ls, splitLines a' = l :: ls := by
        cases h : splitLines a' with
        | nil => exact absurd h (splitLines_ne_nil a')
        | cons l ls => exact ⟨l, ls, rfl⟩
      rw [List.cons_append]
      show splitLines (c :: (a' ++ '\n' :: b)) = splitLines (c :: a') ++ splitLines b
      simp only [splitLines, if_neg hc]
      rw [ih, hl, List.cons_append, consHead, consHead]
      rfl

theorem joinLines_cons (l : List Char) (ls : List (List Char)) (h : ls ≠ []) :
    joinLines (l :: ls) = l ++ '\n' :: joinLines ls := by
  cases ls with
  | nil => exact absurd rfl h
  | cons l' ls' => rfl

theorem joinLines_append (xs ys : List (List Char)) (hx : xs ≠ []) (hy : ys ≠ []) :
    joinLines (xs ++ ys) = joinLines xs ++ '\n' :: joinLines ys := by
  induction xs with
  | nil => exact absurd rfl hx
  | cons x xs' ih =>
    cases xs' with
    | nil =>
      cases ys with
      | nil => exact absurd rfl hy
      | cons y ys' => simp [joinLines]
    | cons x' xs'' =>
      have hx' : x' :: xs'' ≠ [] := by simp
      have h1 : (x' :: xs'') ++ ys ≠ [] := by simp
      calc joinLines ((x :: x' :: xs'') ++ ys)
          = x ++ '\n' :: joinLines ((x' :: xs'') ++ ys) := by
            rw [List.cons_append, joinLines_cons _ _ h1]
        _ = x ++ '\n' :: (joinLines (x' :: xs'') ++ '\n' :: joinLines ys) := by
            rw [ih hx']
        _ = joinLines (x :: x' :: xs'') ++ '\n' :: joinLines ys := by
            rw [joinLines_cons _ _ hx']; simp

/-! ## `textwrap.dedent` (CPython), as applied to the assembled prompt -/

/-- Space or tab, the characters of the dedent regexes `[ \t]`. -/
def isSpTab (c : Char) : Bool := c == ' ' || c == '\t'

/-- One line under `_whitespace_only_re.sub('', text)`: a line consisting
solely of spaces/tabs is blanked; every other line is untouched. -/
def blankLine (l : List Char) : List Char :=
  if l ≠ [] ∧ l.all isSpTab = true then [] else l

/-- Model of `_whitespace_only_re.sub('', text)`: blank every whitespace-only line. -/
def blankWsOnly (s : List Char) : List Char :=
  joinLines ((splitLines s).map blankLine)

theorem blankWsOnly_nil : blankWsOnly [] = [] := by rfl

theorem blankWsOnly_append_nl (a b : List Char) :
    blankWsOnly (a ++ '\n' :: b) = blankWsOnly a ++ '\n' :: blankWsOnly b := by
  unfold blankWsOnly
  rw [splitLines_append_nl, List.map_append]
  have ha : (splitLines a).map blankLine ≠ [] := by
    intro h
    exact splitLines_ne_nil a (List.map_eq_nil_iff.mp h)
  have hb : (splitLines b).map blankLine ≠ [] := by
    intro h
    exact splitLines_ne_nil b (List.map_eq_nil_iff.mp h)
  exact joinLines_append _ _ ha hb

theorem blankWsOnly_cons_nl (b : List Char) :
    blankWsOnly ('\n' :: b) = '\n' :: blankWsOnly b := by
  have := blankWsOnly_append_nl [] b
  simpa [blankWsOnly_nil] using this

/-- Longest common prefix of two strings (the fallback arm of CPython's
dedent margin loop). -/
def commonPre : List Char → List Char → List Char
  | a :: as, b :: bs => if a = b then a :: commonPre as bs else []
  | _, _ => []

/-- One step of CPython dedent's margin fold over the collected indents. -/
def marginStep (m : Option (List Char)) (ind : List Char) : Option (List Char) :=
  match m with
  | none => some ind
  | some mv =>
    if isPre mv ind = true then some mv
    else if isPre ind mv = true then some ind
    else some (commonPre mv ind)

/-- Model of `_leading_whitespace_re.findall(text)`: for every line that still has a
character outside `[ \t]`, its leading run of spaces/tabs, in line order. -/
def collectIndents (s : List Char) : List (List Char) :=
  (splitLines s).filterMap
    (fun l => if l.all isSpTab = true then none else some (l.takeWhile isSpTab))

/-- The margin computed by CPython dedent. -/
def computeMargin (inds : List (List Char)) : Option (List Char) :=
  inds.foldl marginStep none

/-- Model of `re.sub(r'(?m)^' + margin, '', text)`: strip the margin from the start of
every line that carries it. -/
def removeMargin (m : List Char) (s : List Char) : List Char :=
  joinLines ((splitLines s).map (fun l => if isPre m l = true then l.drop m.length else l))

/-- CPython `textwrap.dedent`: blank whitespace-only lines, compute the common
leading whitespace margin of the remaining lines, strip it when non-empty. -/
def pyDedent (s : List Char) : List Char :=
  let t := blankWsOnly s
  match computeMargin (collectIndents t) with
  | none => t
  | some [] => t
  | some m => removeMargin m t

theorem foldl_marginStep_nil (r : List (List Char)) :
    List.foldl marginStep (some []) r = some [] := by
  induction r with
  | nil => rfl
  | cons i r' ih => simpa [marginStep, isPre] using ih

/-- If the blanked text starts with a character that is not a space, a tab or a
newline, the computed margin is empty, so dedent only blanks whitespace-only
lines. -/
theorem pyDedent_eq_blank (s : List Char) (c : Char) (rest : List Char)
    (hb : blankWsOnly s = c :: rest) (hsp : isSpTab c = false) (hnl : c ≠ '\n') :
    pyDedent s = blankWsOnly s := by
  unfold pyDedent
  rw [hb]
  dsimp only
  obtain ⟨l, ls, hl⟩ : ∃ l ls, splitLines rest = l :: ls := by
    cases h : splitLines rest with
    | nil => exact absurd h (splitLines_ne_nil rest)
    | cons l ls => exact ⟨l, ls, rfl⟩
  have hsplit : splitLines (c :: rest) = (c :: l) :: ls := by
    simp only [splitLines, if_neg hnl, hl, consHead]
  have hall : (c :: l).all isSpTab = false := by
    simp [List.all_cons, hsp]
  have htake : (c :: l).takeWhile isSpTab = [] := by
    simp [List.takeWhile_cons, hsp]
  have harm : (if (c :: l).all isSpTab = true then (none : Option (List Char))
      else some ((c :: l).takeWhile isSpTab)) = some [] := by
    rw [hall, htake]
    simp
  have hcoll : collectIndents (c :: rest) =
      [] :: ls.filterMap
        (fun l => if l.all isSpTab = true then none else some (l.takeWhile isSpTab)) := by
    unfold collectIndents
    rw [hsplit]
    simp only [List.filterMap_cons]
    rw [harm]
  rw [hcoll]
  unfold computeMargin
  rw [List.foldl_cons]
  have hms : marginStep none [] = some [] := rfl
  rw [hms, foldl_marginStep_nil]

/-! ## Python `int()` on a string -/

/-- Value of an ASCII digit. -/
def digitVal (c : Char) : Option Nat :=
  if c.isDigit then some (c.toNat - 48) else none

/-- Digits of an integer literal after the first one: Python allows single
underscores between digits. -/
def intDigits (acc : Nat) : List Char → Option Nat
  | [] => some acc
  | '_' :: rest =>
    match rest with
    | [] => none
    | c :: rest' =>
      match digitVal c with
      | none => none
      | some d => intDigits (acc * 10 + d) rest'
  | c :: rest =>
    match digitVal c with
    | none => none
    | some d => intDigits (acc * 10 + d) rest

/-- The digit run of an integer literal (at least one digit). -/
def intCore : List Char → Option Nat
  | [] => none
  | c :: rest =>
    match digitVal c with
    | none => none
    | some d => intDigits d rest

/-- Python `int(s)` for a decimal string: strip whitespace, optional sign,
non-empty digit run (with Python's underscore grouping); `none` models the
`ValueError`.  (Modelled for ASCII digits and whitespace.) -/
def pyInt (s : List Char) : Option Int :=
  match pyStrip s with
  | '+' :: rest => (intCore rest).map Int.ofNat
  | '-' :: rest => (intCore rest).map (fun n => -(Int.ofNat n))
  | t => (intCore t).map Int.ofNat

/-- The `str(exc)` of the `ValueError` raised by `int()` (modelled for inputs
without quotes or control characters, where `repr` just wraps in quotes). -/
def intErrMsg (s : List Char) : List Char :=
  "invalid literal for int() with base 10: ".data ++
    (Char.ofNat 39 :: (s ++ [Char.ofNat 39]))

/-! ## `clean_gutenberg`: the two regex substitutions

`GUTEN_HEADER = re.compile(r"\*\*\* START OF THIS PROJECT GUTENBERG EBOOK.+?\*\*\*", re.DOTALL)`
`GUTEN_FOOTER = re.compile(r"\*\*\* END OF THIS PROJECT GUTENBERG EBOOK.+", re.DOTALL)`
-/

/-- The literal part of `GUTEN_HEADER` before `.+?`. -/
def hdrLit : List Char := "*** START OF THIS PROJECT GUTENBERG EBOOK".data

/-- The literal part of `GUTEN_FOOTER` before `.+`. -/
def ftrLit : List Char := "*** END OF THIS PROJECT GUTENBERG EBOOK".data

/-- The closing `\*\*\*` of `GUTEN_HEADER`. -/
def threeStars : List Char := "***".data

/-- Find the earliest occurrence of `***` and return the remainder after it
(the continuation of the lazy `.+?\*\*\*` tail). -/
def starScan : List Char → Option (List Char)
  | [] => none
  | c :: rest =>
    if isPre threeStars (c :: rest) = true then some ((c :: rest).drop 3)
    else starScan rest

/-- The `.+?\*\*\*` tail: at least one character, then the nearest `***`;
returns the remainder after the match. -/
def lazyTail : List Char → Option (List Char)
  | [] => none
  | _ :: rest => starScan rest

/-- Attempt the full `GUTEN_HEADER` match anchored at the head of `s`;
`some r` is the text after the matched region. -/
def hdrMatch (s : List Char) : Option (List Char) :=
  if isPre hdrLit s = true then lazyTail (s.drop hdrLit.length) else none

/-- Model of `GUTEN_HEADER.sub("", ·)` with explicit fuel (one unit per scanned
position); Python `re.sub` scans left to right and resumes after each match. -/
def hdrAux : Nat → List Char → List Char
  | _, [] => []
  | 0, s => s
  | fuel + 1, c :: rest =>
    match hdrMatch (c :: rest) with
    | some r => hdrAux fuel r
    | none => c :: hdrAux fuel rest

/-- Model of `GUTEN_HEADER.sub("", s)`. -/
def headerSub (s : List Char) : List Char := hdrAux s.length s

/-- Model of `GUTEN_FOOTER.sub("", s)`: at the first position where the footer literal
matches with at least one following character (`.+`), everything to the end of
the string is removed. -/
def footerSub : List Char → List Char
  | [] => []
  | c :: rest =>
    if isPre ftrLit (c :: rest) = true ∧ ftrLit.length ≤ rest.length then []
    else c :: footerSub rest

/-- Model of `clean_gutenberg`: header strip, footer strip, whitespace trim. -/
def clean_gutenberg (raw : List Char) : List Char :=
  pyStrip (footerSub (headerSub raw))

theorem starScan_length (t r : List Char) (h : starScan t = some r) :
    r.length ≤ t.length := by
  induction t with
  | nil => simp [starScan] at h
  | cons c rest ih =>
    simp only [starScan] at h
    split at h
    · cases h
      simp only [List.length_drop, List.length_cons]
      omega
    · exact Nat.le_trans (ih h) (by simp)

theorem lazyTail_length (t r : List Char) (h : lazyTail t = some r) :
    r.length ≤ t.length := by
  cases t with
  | nil => simp [lazyTail] at h
  | cons d rest => exact Nat.le_trans (starScan_length rest r h) (by simp)

theorem hdrMatch_length (c : Char) (s r : List Char)
    (h : hdrMatch (c :: s) = some r) : r.length ≤ s.length := by
  unfold hdrMatch at h
  split at h
  · have h1 := lazyTail_length _ _ h
    have h2 : ((c :: s).drop hdrLit.length).length = (c :: s).length - hdrLit.length :=
      List.length_drop _ _
    have h3 : hdrLit.length = 41 := rfl
    simp only [List.length_cons] at h2
    omega
  · cases h

theorem hdrAux_fuel_irrel (f1 : Nat) : ∀ (s : List Char) (f2 : Nat),
    s.length ≤ f1 → s.length ≤ f2 → hdrAux f1 s = hdrAux f2 s := by
  induction f1 with
  | zero =>
    intro s f2 h1 _
    have : s = [] := List.length_eq_zero.mp (Nat.le_zero.mp h1)
    subst this
    cases f2 <;> rfl
  | succ f1' ih =>
    intro s f2 h1 h2
    cases s with
    | nil => cases f2 <;> rfl
    | cons c rest =>
      cases f2 with
      | zero => simp at h2
      | succ f2' =>
        simp only [List.length_cons] at h1 h2
        simp only [hdrAux]
        cases hm : hdrMatch (c :: rest) with
        | some r =>
          have hr : r.length ≤ rest.length := hdrMatch_length c rest r hm
          exact ih r f2' (by omega) (by omega)
        | none =>
          rw [ih rest f2' (by omega) (by omega)]

theorem headerSub_cons_some (c : Char) (s r : List Char)
    (h : hdrMatch (c :: s) = some r) : headerSub (c :: s) = headerSub r := by
  unfold headerSub
  simp only [List.length_cons, hdrAux, h]
  exact hdrAux_fuel_irrel s.length r r.length (hdrMatch_length c s r h) (Nat.le_refl _)

theorem headerSub_cons_none (c : Char) (s : List Char)
    (h : hdrMatch (c :: s) = none) : headerSub (c :: s) = c :: headerSub s := by
  unfold headerSub
  simp only [List.length_cons, hdrAux, h]

theorem headerSub_nil : headerSub [] = [] := rfl

/-- Strings without `'*'`: no position in them can start a marker match. -/
def noStar (s : List Char) : Prop := ∀ c ∈ s, c ≠ '*'

instance (s : List Char) : Decidable (noStar s) := by
  unfold noStar
  infer_instance

theorem isPre_star_head (c : Char) (as s : List Char) (hc : c ≠ '*') :
    isPre ('*' :: as) (c :: s) = false := by
  have hne : ¬('*' = c) := fun h => hc h.symm
  simp only [isPre, if_neg hne]

theorem hdrMatch_none_of_isPre_false (s : List Char)
    (h : isPre hdrLit s = false) : hdrMatch s = none := by
  unfold hdrMatch
  rw [h]
  simp

theorem hdrMatch_nonstar (c : Char) (s : List Char) (hc : c ≠ '*') :
    hdrMatch (c :: s) = none := by
  apply hdrMatch_none_of_isPre_false
  have e : hdrLit = '*' :: "** START OF THIS PROJECT GUTENBERG EBOOK".data := rfl
  rw [e]
  exact isPre_star_head c _ s hc

theorem headerSub_nonstar_cons (c : Char) (s : List Char) (hc : c ≠ '*') :
    headerSub (c :: s) = c :: headerSub s :=
  headerSub_cons_none c s (hdrMatch_nonstar c s hc)

theorem headerSub_nonstar_append (a x : List Char) (ha : noStar a) :
    headerSub (a ++ x) = a ++ headerSub x := by
  induction a with
  | nil => simp
  | cons c a' ih =>
    have hc : c ≠ '*' := ha c (by simp)
    have ha' : noStar a' := fun d hd => ha d (by simp [hd])
    rw [List.cons_append, headerSub_nonstar_cons c _ hc, ih ha']
    rfl

theorem headerSub_noStar_id (s : List Char) (hs : noStar s) : headerSub s = s := by
  have := headerSub_nonstar_append s [] hs
  simpa [headerSub_nil] using this

theorem starScan_nonstar (u y : List Char) (hu : noStar u) :
    starScan (u ++ (threeStars ++ y)) = some y := by
  induction u with
  | nil =>
    have h1 : isPre threeStars (threeStars ++ y) = true := isPre_self_append _ _
    simp only [List.nil_append]
    cases hty : threeStars ++ y with
    | nil => exact absurd hty (by simp [threeStars])
    | cons d rest =>
      rw [← hty]
      conv =>
        lhs
        rw [hty]
      simp only [starScan]
      rw [← hty, if_pos h1, hty]
      have : (d :: rest).drop 3 = y := by
        have : threeStars ++ y = '*' :: '*' :: '*' :: y := rfl
        rw [this] at hty
        cases hty
        rfl
      rw [this]
  | cons c u' ih =>
    have hc : c ≠ '*' := hu c (by simp)
    have hu' : noStar u' := fun d hd => hu d (by simp [hd])
    have hfalse : isPre threeStars (c :: (u' ++ (threeStars ++ y))) = false := by
      have e : threeStars = '*' :: "**".data := rfl
      rw [e]
      exact isPre_star_head c _ _ hc
    rw [List.cons_append]
    simp only [starScan]
    rw [hfalse]
    simpa using ih hu'

theorem headerSub_of_some (s r : List Char) (h : hdrMatch s = some r) :
    headerSub s = headerSub r := by
  cases s with
  | nil =>
    have : hdrMatch ([] : List Char) = none := by decide
    rw [this] at h
    cases h
  | cons c rest => exact headerSub_cons_some c rest r h

theorem hdrMatch_marker (mid y : List Char) (hm : noStar mid) (hne : mid ≠ []) :
    hdrMatch (hdrLit ++ (mid ++ (threeStars ++ y))) = some y := by
  unfold hdrMatch
  rw [if_pos (isPre_self_append hdrLit _), List.drop_left]
  cases mid with
  | nil => exact absurd rfl hne
  | cons m mid' =>
    have hm' : noStar mid' := fun d hd => hm d (by simp [hd])
    simp only [List.cons_append, lazyTail]
    exact starScan_nonstar mid' y hm'

/-- The header substitution on a text shaped like a Gutenberg book whose
pieces contain no `'*'`: only the marker region itself is removed; the text
before the marker survives. -/
theorem headerSub_shape (pre mid body tail : List Char)
    (hpre : noStar pre) (hmid : noStar mid) (hmne : mid ≠ [])
    (hbody : noStar body) (htail : noStar tail) :
    headerSub (pre ++ (hdrLit ++ (mid ++ (threeStars ++ (body ++ (ftrLit ++ tail)))))) =
      pre ++ (body ++ (ftrLit ++ tail)) := by
  rw [headerSub_nonstar_append pre _ hpre]
  rw [headerSub_of_some _ _ (hdrMatch_marker mid (body ++ (ftrLit ++ tail)) hmid hmne)]
  rw [headerSub_nonstar_append body _ hbody]
  congr 1
  congr 1
  -- headerSub (ftrLit ++ tail) = ftrLit ++ tail: step over the three stars and
  -- the 'E' mismatch, then over star-free text.
  have e1 : ftrLit ++ tail = '*' :: ("** END OF THIS PROJECT GUTENBERG EBOOK".data ++ tail) := rfl
  have e2 : "** END OF THIS PROJECT GUTENBERG EBOOK".data ++ tail
      = '*' :: ("* END OF THIS PROJECT GUTENBERG EBOOK".data ++ tail) := rfl
  have e3 : "* END OF THIS PROJECT GUTENBERG EBOOK".data ++ tail
      = '*' :: (" END OF THIS PROJECT GUTENBERG EBOOK".data ++ tail) := rfl
  have n1 : hdrMatch (ftrLit ++ tail) = none := by
    apply hdrMatch_none_of_isPre_false
    rfl
  have n2 : hdrMatch ("** END OF THIS PROJECT GUTENBERG EBOOK".data ++ tail) = none := by
    apply hdrMatch_none_of_isPre_false
    rfl
  have n3 : hdrMatch ("* END OF THIS PROJECT GUTENBERG EBOOK".data ++ tail) = none := by
    apply hdrMatch_none_of_isPre_false
    rfl
  conv_lhs => rw [e1]
  rw [headerSub_cons_none _ _ (by rw [← e1]; exact n1)]
  conv_lhs => rw [e2]
  rw [headerSub_cons_none _ _ (by rw [← e2]; exact n2)]
  conv_lhs => rw [e3]
  rw [headerSub_cons_none _ _ (by rw [← e3]; exact n3)]
  rw [headerSub_nonstar_append _ tail (by decide)]
  rw [headerSub_noStar_id tail htail]
  rw [e1, e2, e3]

theorem footerSub_nonstar_cons (c : Char) (s : List Char) (hc : c ≠ '*') :
    footerSub (c :: s) = c :: footerSub s := by
  have hfalse : isPre ftrLit (c :: s) = false := by
    have e : ftrLit = '*' :: "** END OF THIS PROJECT GUTENBERG EBOOK".data := rfl
    rw [e]
    exact isPre_star_head c _ s hc
  simp only [footerSub]
  rw [if_neg]
  intro hh
  rw [hfalse] at hh
  exact absurd hh.1 (by simp)

theorem footerSub_nonstar_append (a x : List Char) (ha : noStar a) :
    footerSub (a ++ x) = a ++ footerSub x := by
  induction a with
  | nil => simp
  | cons c a' ih =>
    have hc : c ≠ '*' := ha c (by simp)
    have ha' : noStar a' := fun d hd => ha d (by simp [hd])
    rw [List.cons_append, footerSub_nonstar_cons c _ hc, ih ha']
    rfl

theorem footerSub_cut (tail : List Char) (ht : tail ≠ []) :
    footerSub (ftrLit ++ tail) = [] := by
  have e : ftrLit ++ tail = '*' :: ("** END OF THIS PROJECT GUTENBERG EBOOK".data ++ tail) := rfl
  have h1 : isPre ftrLit (ftrLit ++ tail) = true := isPre_self_append _ _
  rw [e]
  simp only [footerSub]
  rw [if_pos]
  constructor
  · rw [← e]
    exact h1
  · have hlen : 1 ≤ tail.length := List.length_pos.mpr ht
    have l1 : ftrLit.length = 39 := rfl
    have l2 : ("** END OF THIS PROJECT GUTENBERG EBOOK".data).length = 38 := rfl
    rw [l1, List.length_append, l2]
    omega

/-! ## Data model: the in-memory Store

`BOOKS`/`CHUNKS` are Python dicts keyed by the two `itertools.count(1)`
counters; insertion-ordered dicts are modelled as association lists. -/

/-- A value of `CHUNKS`: `{"book_id": ..., "text": ..., "annotation": ""}`
(the cache slot is named `annot` here; its source key is `"annotation"`). -/
structure Chunk where
  book_id : Nat
  text : List Char
  annot : List Char
deriving DecidableEq

/-- A value of `BOOKS`: `{"url": ..., "title": ..., "chunks": [...]}`. -/
structure Book where
  url : List Char
  title : List Char
  chunks : List Nat
deriving DecidableEq

/-- The module-level mutable state: both dicts and both id counters. -/
structure Store where
  books : List (Nat × Book)
  chunks : List (Nat × Chunk)
  nextBook : Nat
  nextChunk : Nat
deriving DecidableEq

/-- The state at process start: empty dicts, both counters at 1. -/
def initStore : Store := ⟨[], [], 1, 1⟩

/-- Python dict lookup `d[k]` (first matching key; `none` models `KeyError`,
also used for `k in d` tests). -/
def dictGet {α : Type} : List (Nat × α) → Nat → Option α
  | [], _ => none
  | p :: l, k => if p.1 = k then some p.2 else dictGet l k

/-- Membership test `k in d`. -/
def dictHas {α : Type} : List (Nat × α) → Nat → Bool
  | [], _ => false
  | p :: l, k => if p.1 = k then true else dictHas l k

/-- Python dict assignment `d[k] = v`: overwrite in place if the key exists,
else append (insertion order preserved). -/
def dictSet {α : Type} (l : List (Nat × α)) (k : Nat) (v : α) : List (Nat × α) :=
  if dictHas l k = true then
    l.map (fun p => if p.1 = k then (k, v) else p)
  else l ++ [(k, v)]

/-- In-place mutation of the value at a key (`BOOKS[book_id]["chunks"].append(cid)`). -/
def dictModify {α : Type} (l : List (Nat × α)) (k : Nat) (f : α → α) : List (Nat × α) :=
  l.map (fun p => if p.1 = k then (p.1, f p.2) else p)

theorem dictGet_nil {α : Type} (k : Nat) : dictGet ([] : List (Nat × α)) k = none := rfl

theorem dictHas_false {α : Type} (l : List (Nat × α)) (k : Nat)
    (h : ∀ p ∈ l, p.1 ≠ k) : dictHas l k = false := by
  induction l with
  | nil => rfl
  | cons p l' ih =>
    simp only [dictHas, if_neg (h p (by simp))]
    exact ih (fun q hq => h q (by simp [hq]))

theorem dictSet_fresh {α : Type} (l : List (Nat × α)) (k : Nat) (v : α)
    (h : ∀ p ∈ l, p.1 ≠ k) : dictSet l k v = l ++ [(k, v)] := by
  unfold dictSet
  rw [dictHas_false l k h]
  simp

theorem dictGet_append_right {α : Type} (l : List (Nat × α)) (k : Nat) (v : α)
    (h : ∀ p ∈ l, p.1 ≠ k) : dictGet (l ++ [(k, v)]) k = some v := by
  induction l with
  | nil => simp [dictGet]
  | cons p l' ih =>
    rw [List.cons_append]
    simp only [dictGet, if_neg (h p (by simp))]
    exact ih (fun q hq => h q (by simp [hq]))

theorem dictGet_append_left {α : Type} (l : List (Nat × α)) (k k' : Nat) (v : α)
    (h : k' ≠ k) : dictGet (l ++ [(k, v)]) k' = dictGet l k' := by
  induction l with
  | nil =>
    have hne : ¬(k = k') := fun hh => h (Eq.symm hh)
    simp [dictGet, if_neg hne]
  | cons p l' ih =>
    rw [List.cons_append]
    simp only [dictGet]
    by_cases hp : p.1 = k'
    · simp [hp]
    · simp only [if_neg hp]
      exact ih

theorem dictGet_modify_map_fst {α : Type} (l : List (Nat × α)) (k : Nat) (f : α → α) :
    (dictModify l k f).map Prod.fst = l.map Prod.fst := by
  unfold dictModify
  induction l with
  | nil => rfl
  | cons p l' ih =>
    simp only [List.map_cons, ih]
    by_cases hp : p.1 = k
    · simp [if_pos hp, hp]
    · simp [if_neg hp]

theorem dictGet_modify_eq {α : Type} (l : List (Nat × α)) (k : Nat) (f : α → α) (v : α)
    (h : dictGet l k = some v) : dictGet (dictModify l k f) k = some (f v) := by
  unfold dictModify
  induction l with
  | nil => simp [dictGet] at h
  | cons p l' ih =>
    by_cases hp : p.1 = k
    · simp only [dictGet, if_pos hp] at h
      cases h
      simp only [List.map_cons, if_pos hp, dictGet, if_pos hp]
    · simp only [dictGet, if_neg hp] at h
      simp only [List.map_cons, if_neg hp, dictGet, if_neg hp]
      exact ih h

theorem dictGet_modify_ne {α : Type} (l : List (Nat × α)) (k k' : Nat) (f : α → α)
    (h : k' ≠ k) : dictGet (dictModify l k f) k' = dictGet l k' := by
  unfold dictModify
  induction l with
  | nil => rfl
  | cons p l' ih =>
    by_cases hp : p.1 = k
    · have hp2 : ¬(k = k') := fun hh => h hh.symm
      simp only [List.map_cons, if_pos hp, dictGet, if_neg hp2]
      have hp3 : ¬(p.1 = k') := by rw [hp]; exact hp2
      rw [← hp] at hp2
      simp only [dictGet, if_neg hp3]
      exact ih
    · simp only [List.map_cons, if_neg hp, dictGet]
      by_cases hq : p.1 = k'
      · simp [hq]
      · simp only [if_neg hq]
        exact ih

/-! ## `get_adjacent_texts` (the Context Assembler) and `list.index` -/

/-- Python `list.index(x)`: index of the first occurrence, `none` models
`ValueError`. -/
def pyIndex : List Nat → Nat → Option Nat
  | [], _ => none
  | a :: as, x => if a = x then some 0 else (pyIndex as x).map (· + 1)

theorem pyIndex_nodup_get (l : List Nat) (k : Nat) (hk : k < l.length)
    (hnd : l.Nodup) : pyIndex l (l.get ⟨k, hk⟩) = some k := by
  induction l generalizing k with
  | nil => simp at hk
  | cons a as ih =>
    cases k with
    | zero => simp [pyIndex]
    | succ k' =>
      have hk' : k' < as.length := by simpa using hk
      have hget : (a :: as).get ⟨k' + 1, hk⟩ = as.get ⟨k', hk'⟩ := rfl
      have hmem : as.get ⟨k', hk'⟩ ∈ as := List.get_mem as k' hk'
      have hane : a ≠ as.get ⟨k', hk'⟩ := by
        intro he
        exact (List.nodup_cons.mp hnd).1 (he ▸ hmem)
      rw [hget]
      simp only [pyIndex, if_neg hane]
      rw [ih k' hk' (List.nodup_cons.mp hnd).2]
      rfl

/-- Model of `get_adjacent_texts(chunk_id)`: resolve the chunk, its book and its
position, then read the neighbours' text (empty string at the boundaries).
`none` models an uncaught `KeyError`/`ValueError`/`IndexError`. -/
def get_adjacent_texts (st : Store) (chunk_id : Nat) : Option (List Char × List Char) :=
  match dictGet st.chunks chunk_id with
  | none => none
  | some chunk =>
    match dictGet st.books chunk.book_id with
    | none => none
    | some book =>
      match pyIndex book.chunks chunk_id with
      | none => none
      | some idx =>
        match (if 0 < idx then
                 match book.chunks[idx - 1]? with
                 | none => none
                 | some pid =>
                   match dictGet st.chunks pid with
                   | none => none
                   | some pc => some pc.text
               else some []) with
        | none => none
        | some prev_text =>
          match (if idx < book.chunks.length - 1 then
                   match book.chunks[idx + 1]? with
                   | none => none
                   | some nid =>
                     match dictGet st.chunks nid with
                     | none => none
                     | some nc => some nc.text
                 else some []) with
          | none => none
          | some next_text => some (prev_text, next_text)

/-! ## Ingestion (`POST /ingest`) -/

/-- Model of `os.path.basename(url)`: everything after the last `'/'`. -/
def basename (s : List Char) : List Char :=
  (s.reverse.takeWhile (fun c => c != '/')).reverse

/-- One call of the ingestion route, with its two external collaborators as
oracles: the outcome of `fetch_gutenberg_text(url)` (an `error` models a
non-success status, a non-text content type or a transport fault) and the
outcome of `split_paragraphs` on the cleaned text (an `error` models a
failure of the tokenizer/splitter libraries). -/
structure IngestCall where
  url : List Char
  fetch : Except (List Char) (List Char)
  splitter : List Char → Except (List Char) (List (List Char))

/-- The `for chunk_text in split_paragraphs(clean)` loop: assign the next
chunk id, store the chunk record (with empty `"annotation"` slot), and append
the id to the book's chunk list. -/
def ingestLoop (st : Store) (book_id : Nat) : List (List Char) → Store
  | [] => st
  | t :: ts =>
    let cid := st.nextChunk
    ingestLoop
      { st with
        nextChunk := cid + 1
        chunks := dictSet st.chunks cid ⟨book_id, t, []⟩
        books := dictModify st.books book_id
          (fun b => ⟨b.url, b.title, b.chunks ++ [cid]⟩) }
      book_id ts

/-- The `ingest` route: fetch (may raise before any store mutation), clean,
assign a book id and create the book record, split (may raise after the book
record exists), then append every chunk.  The returned `Except` carries the
response `{book_id, chunks}` or the propagated exception. -/
def ingest (st : Store) (call : IngestCall) :
    Store × Except (List Char) (Nat × List Nat) :=
  match call.fetch with
  | Except.error e => (st, Except.error e)
  | Except.ok raw =>
    let clean := clean_gutenberg raw
    let book_id := st.nextBook
    let st1 : Store :=
      { st with
        nextBook := st.nextBook + 1
        books := dictSet st.books book_id ⟨call.url, basename call.url, []⟩ }
    match call.splitter clean with
    | Except.error e => (st1, Except.error e)
    | Except.ok ts =>
      let st2 := ingestLoop st1 book_id ts
      match dictGet st2.books book_id with
      | none => (st2, Except.error "KeyError".data)
      | some b => (st2, Except.ok (book_id, b.chunks))

/-- A sequence of ingestion calls against the process-wide store. -/
def runCalls (st : Store) : List IngestCall → Store
  | [] => st
  | c :: cs => runCalls (ingest st c).1 cs

/-! ## The websocket annotation session (`/ws/{chunk_id}`) -/

/-- The structured `vocabs` item of the model result. -/
structure Vocab where
  tricky_word : List Char
  definition : List Char
deriving DecidableEq

/-- The structured model result `{summary, vocabs}`. -/
structure Annotation where
  summary : List Char
  vocabs : List Vocab
deriving DecidableEq

/-- The module constant `SYSTEM_PROMPT` (adjacent Python string literals
concatenate without separator). -/
def SYSTEM_PROMPT : List Char :=
  ("You are a literary annotator. Provide clear, concise commentary ONLY for the text between the markers 'BEGIN SECTION TO EXPLICATE' and 'END SECTION TO EXPLICATE'. Use the surrounding context solely to inform your analysis; do not annotate it.If the relevant section seems to be webpage code or title page etc your summary should just be three dots/ellipses (...) only.").data

/-- The default of the `goal` query parameter. -/
def DEFAULT_GOAL : List Char :=
  "Explain archaic vocabulary and summarise the paragraph if not web code .".data

/-- The model identifier passed to `client.responses.parse`. -/
def MODEL_NAME : List Char := "gpt-4.1-nano-2025-04-14".data

/-- The f-string assembling the user message, before `textwrap.dedent`. -/
def promptRaw (prev_text chunk_text next_text goal : List Char) : List Char :=
  "=== CONTEXT BEFORE ===\n".data ++ prev_text ++
  "\n\n=== BEGIN SECTION TO EXPLICATE ===\n".data ++ chunk_text ++
  "\n=== END SECTION TO EXPLICATE ===\n\n=== CONTEXT AFTER ===\n".data ++ next_text ++
  "\n\n=== TASK ===\n".data ++ goal ++ "\n".data

/-- The user message as sent: `textwrap.dedent` applied to the f-string. -/
def userMessage (prev_text chunk_text next_text goal : List Char) : List Char :=
  pyDedent (promptRaw prev_text chunk_text next_text goal)

/-- JSON string of `s` (modelled for strings needing no JSON escapes). -/
def jsonQuote (s : List Char) : List Char := '"' :: (s ++ ['"'])

/-- Items joined by `", "`, as in (the default `json.dumps` separators used by
pydantic v1 `.json()`). -/
def joinComma : List (List Char) → List Char
  | [] => []
  | [x] => x
  | x :: y :: r => x ++ ", ".data ++ joinComma (y :: r)

/-- One `vocabs` item of `annotation.json()`. -/
def vocabJson (v : Vocab) : List Char :=
  "\x7b\"tricky_word\": ".data ++ jsonQuote v.tricky_word ++
    ", \"definition\": ".data ++ jsonQuote v.definition ++ "\x7d".data

/-- Model of `annotation.json()`: the single payload sent on success. -/
def annotationJson (a : Annotation) : List Char :=
  "\x7b\"summary\": ".data ++ jsonQuote a.summary ++
    ", \"vocabs\": [".data ++ joinComma (a.vocabs.map vocabJson) ++ "]\x7d".data

/-- The request the session hands to the model capability
(`client.responses.parse(model=..., input=[system, user], text_format= Annotation)`);
note the call passes no output-token limit of any kind. -/
structure ModelRequest where
  model : List Char
  system : List Char
  user : List Char
deriving DecidableEq

/-- Oracle for the awaited model call: a parsed result, an exception with its
`str(exc)` message, or a `WebSocketDisconnect` surfacing at the await. -/
inductive ModelOutcome where
  | ok (a : Annotation)
  | exn (msg : List Char)
  | disconnect
deriving DecidableEq

/-- Observable actions of the session on its channel. -/
inductive WsEvent where
  | accept
  | sendText (payload : List Char)
  | close (code : Nat) (reason : Option (List Char))
deriving DecidableEq

/-- A finished session: the store it leaves behind, the channel events in
order, and every request made to the model capability. -/
structure WsRun where
  store : Store
  events : List WsEvent
  calls : List ModelRequest
deriving DecidableEq

/-- The `str(exc)` of the exception propagating out of `get_adjacent_texts`
(abstracted; this path is unreachable on well-formed stores). -/
def adjacentErrMsg : List Char := "KeyError".data

/-- The `ws_annotations` handler: accept; reject with close code 4000 when the
chunk id is unknown; otherwise read `goal` and `max_tokens` (an `int()` parse
failure is caught by the generic handler: close 4001 with the error text),
assemble the dedented prompt, call the model once, and either send the
serialized result then close normally (1000), close 4001 with `str(exc)` on a
model exception, or end silently on `WebSocketDisconnect`. -/
def ws_annotations (st : Store) (chunk_id : Nat)
    (goalQ maxTokQ : Option (List Char)) (outcome : ModelOutcome) : WsRun :=
  match dictGet st.chunks chunk_id with
  | none => ⟨st, [WsEvent.accept, WsEvent.close 4000 none], []⟩
  | some chunk =>
    let goal := goalQ.getD DEFAULT_GOAL
    let maxStr := maxTokQ.getD "256".data
    match pyInt maxStr with
    | none => ⟨st, [WsEvent.accept, WsEvent.close 4001 (some (intErrMsg maxStr))], []⟩
    | some _max_out =>
      match get_adjacent_texts st chunk_id with
      | none => ⟨st, [WsEvent.accept, WsEvent.close 4001 (some adjacentErrMsg)], []⟩
      | some (prev_text, next_text) =>
        let content := userMessage prev_text chunk.text next_text goal
        let req : ModelRequest := ⟨MODEL_NAME, SYSTEM_PROMPT, content⟩
        match outcome with
        | ModelOutcome.ok a =>
          ⟨st, [WsEvent.accept, WsEvent.sendText (annotationJson a),
                WsEvent.close 1000 none], [req]⟩
        | ModelOutcome.exn msg =>
          ⟨st, [WsEvent.accept, WsEvent.close 4001 (some msg)], [req]⟩
        | ModelOutcome.disconnect => ⟨st, [WsEvent.accept], [req]⟩

/-! ## Claim theorems -/

/-- Claim C1: for every annotation-exchange connection whose requested chunk
identifier is not present in the Store, the session closes the channel with
the distinguishing reject status code 4000 (and no reason), makes zero calls
to the model capability, leaves the store untouched, and sends nothing else:
the session ends with no prompt assembled, whatever the model oracle would
have answered. -/
theorem ws_reject_unknown_chunk (st : Store) (cid : Nat)
    (goalQ maxTokQ : Option (List Char)) (outcome : ModelOutcome)
    (h : dictGet st.chunks cid = none) :
    ws_annotations st cid goalQ maxTokQ outcome =
      ⟨st, [WsEvent.accept, WsEvent.close 4000 none], []⟩ := by
  unfold ws_annotations
  rw [h]

/-- Witness for C1: the empty store knows no chunk 1; the reject close with
code 4000 is observed. -/
theorem ws_reject_unknown_chunk_witness :
    ws_annotations initStore 1 none none (ModelOutcome.ok ⟨"s".data, []⟩) =
      ⟨initStore, [WsEvent.accept, WsEvent.close 4000 none], []⟩ :=
  ws_reject_unknown_chunk initStore 1 none none (ModelOutcome.ok ⟨"s".data, []⟩) rfl

/-- Claim C10: on an existing chunk, a `max_tokens` query parameter that does
not parse as an integer makes the session close with the failure code 4001
(the same code as a model failure, not the 4000 reject code), with the
`int()` error text as reason, before any model call. -/
theorem ws_bad_max_tokens (st : Store) (cid : Nat) (goalQ : Option (List Char))
    (s : List Char) (outcome : ModelOutcome) (chunk : Chunk)
    (hc : dictGet st.chunks cid = some chunk)
    (hs : pyInt s = none) :
    ws_annotations st cid goalQ (some s) outcome =
      ⟨st, [WsEvent.accept, WsEvent.close 4001 (some (intErrMsg s))], []⟩ := by
  unfold ws_annotations
  rw [hc]
  dsimp only [Option.getD_some]
  rw [hs]

/-- Helper store: one book (id 1) holding one chunk (id 1). -/
def storeOne : Store :=
  ⟨[(1, ⟨"u".data, "u".data, [1]⟩)], [(1, ⟨1, "T".data, []⟩)], 2, 2⟩

/-- Witness for C10: `max_tokens="12x"` on the one-chunk store. -/
theorem ws_bad_max_tokens_witness :
    ws_annotations storeOne 1 none (some ("12x".data)) (ModelOutcome.ok ⟨"s".data, []⟩) =
      ⟨storeOne, [WsEvent.accept, WsEvent.close 4001 (some (intErrMsg ("12x".data)))], []⟩ :=
  ws_bad_max_tokens storeOne 1 none ("12x".data) (ModelOutcome.ok ⟨"s".data, []⟩)
    ⟨1, "T".data, []⟩ rfl (by decide)

/-- Claim C7: when the model capability raises, the session closes with the
distinguishing failure code 4001 and the exception text as the human-readable
reason, sends no payload (no `sendText` event), and makes exactly one model
call, i.e. no retry. -/
theorem ws_model_failure_close (st : Store) (cid : Nat)
    (goalQ maxTokQ : Option (List Char)) (msg : List Char) (chunk : Chunk)
    (pn : List Char × List Char)
    (hc : dictGet st.chunks cid = some chunk)
    (hp : pyInt (maxTokQ.getD ("256".data)) ≠ none)
    (ha : get_adjacent_texts st cid = some pn) :
    (ws_annotations st cid goalQ maxTokQ (ModelOutcome.exn msg)).events =
        [WsEvent.accept, WsEvent.close 4001 (some msg)] ∧
      (ws_annotations st cid goalQ maxTokQ (ModelOutcome.exn msg)).calls.length = 1 := by
  obtain ⟨v, hv⟩ := Option.ne_none_iff_exists'.mp hp
  obtain ⟨p, n⟩ := pn
  unfold ws_annotations
  rw [hc]
  dsimp only
  rw [hv, ha]
  exact ⟨rfl, rfl⟩

/-- Witness for C7: a failing model call on the one-chunk store. -/
theorem ws_model_failure_close_witness :
    (ws_annotations storeOne 1 none none (ModelOutcome.exn ("boom".data))).events =
        [WsEvent.accept, WsEvent.close 4001 (some ("boom".data))] ∧
      (ws_annotations storeOne 1 none none (ModelOutcome.exn ("boom".data))).calls.length = 1 :=
  ws_model_failure_close storeOne 1 none none ("boom".data) ⟨1, "T".data, []⟩ ([], [])
    rfl (by decide) rfl

/-- Claim C5 (amended): `max_tokens` is accepted with default string `"256"`
(parsing to 256) and parsed at connection time; but the resolved value is not
forwarded to the model capability: two sessions differing only in a parseable
`max_tokens` value are identical in every observable, including the requests
made to the model (the `client.responses.parse` call passes no output-token
limit). -/
theorem max_tokens_parsed_not_forwarded :
    pyInt ("256".data) = some 256 ∧
    ∀ (st : Store) (cid : Nat) (goalQ : Option (List Char)) (q1 q2 : List Char)
      (outcome : ModelOutcome), pyInt q1 ≠ none → pyInt q2 ≠ none →
      ws_annotations st cid goalQ (some q1) outcome =
        ws_annotations st cid goalQ (some q2) outcome := by
  constructor
  · rfl
  · intro st cid goalQ q1 q2 outcome h1 h2
    obtain ⟨v1, hv1⟩ := Option.ne_none_iff_exists'.mp h1
    obtain ⟨v2, hv2⟩ := Option.ne_none_iff_exists'.mp h2
    cases hc : dictGet st.chunks cid with
    | none =>
      unfold ws_annotations
      rw [hc]
    | some chunk =>
      unfold ws_annotations
      rw [hc]
      dsimp only [Option.getD_some]
      rw [hv1, hv2]

/-- Witness for C5 (amended): concrete sessions with `max_tokens=7` and
`max_tokens=999` coincide. -/
theorem max_tokens_parsed_not_forwarded_witness :
    ws_annotations storeOne 1 none (some ("7".data)) (ModelOutcome.ok ⟨"s".data, []⟩) =
      ws_annotations storeOne 1 none (some ("999".data)) (ModelOutcome.ok ⟨"s".data, []⟩) :=
  max_tokens_parsed_not_forwarded.2 storeOne 1 none ("7".data) ("999".data)
    (ModelOutcome.ok ⟨"s".data, []⟩) (by decide) (by decide)

/-- Counterexample for C5 as stated: the full session run — in particular the
single request made to the model capability — is the same for
`max_tokens="7"` and `max_tokens="999"`, and a model request is made; so the
resolved value cannot be the output-token budget of the model invocation. -/
theorem max_tokens_unused_cex :
    ws_annotations storeOne 1 none (some ("7".data)) (ModelOutcome.ok ⟨"s".data, []⟩) =
      ws_annotations storeOne 1 none (some ("999".data)) (ModelOutcome.ok ⟨"s".data, []⟩) ∧
    (ws_annotations storeOne 1 none (some ("7".data))
      (ModelOutcome.ok ⟨"s".data, []⟩)).calls ≠ [] := by
  constructor
  · rfl
  · intro hnil
    have hlen : (ws_annotations storeOne 1 none (some ("7".data))
        (ModelOutcome.ok ⟨"s".data, []⟩)).calls.length = 1 := rfl
    rw [hnil] at hlen
    cases hlen

theorem dictSet_all {α : Type} (l : List (Nat × α)) (k : Nat) (v : α)
    (q : Nat × α → Bool) (hl : l.all q = true) (hv : q (k, v) = true) :
    (dictSet l k v).all q = true := by
  unfold dictSet
  split
  · rw [List.all_eq_true] at hl ⊢
    intro x hx
    obtain ⟨p, hp, he⟩ := List.mem_map.mp hx
    by_cases hpk : p.1 = k
    · rw [if_pos hpk] at he
      rw [← he]
      exact hv
    · rw [if_neg hpk] at he
      rw [← he]
      exact hl p hp
  · rw [List.all_append, hl]
    simpa using hv

/-- Every chunk record written by the ingestion loop carries an empty
annotation slot. -/
theorem ingestLoop_annot_empty (ts : List (List Char)) (st : Store) (bid : Nat)
    (h : st.chunks.all (fun p => p.2.annot.isEmpty) = true) :
    ((ingestLoop st bid ts).chunks.all (fun p => p.2.annot.isEmpty)) = true := by
  induction ts generalizing st with
  | nil => exact h
  | cons t ts' ih =>
    unfold ingestLoop
    apply ih
    exact dictSet_all _ _ _ _ h rfl

/-- Every chunk record ever created by ingestion has an empty annotation
slot. -/
theorem ingest_annot_empty (call : IngestCall) (st : Store)
    (h : st.chunks.all (fun p => p.2.annot.isEmpty) = true) :
    ((ingest st call).1.chunks.all (fun p => p.2.annot.isEmpty)) = true := by
  unfold ingest
  cases call.fetch with
  | error e => exact h
  | ok raw =>
    dsimp only
    cases hs : call.splitter (clean_gutenberg raw) with
    | error e => exact h
    | ok ts =>
      dsimp only
      cases hg : dictGet (ingestLoop
          { st with
            nextBook := st.nextBook + 1
            books := dictSet st.books st.nextBook ⟨call.url, basename call.url, []⟩ }
          st.nextBook ts).books st.nextBook with
      | none => exact ingestLoop_annot_empty ts _ _ h
      | some b => exact ingestLoop_annot_empty ts _ _ h

/-- Claim C9: an annotation session never mutates the Store — the store that
comes out of `ws_annotations` is the one that went in, on every path
(rejected, parse failure, delivered, model failure, disconnect) — and the
chunk annotation slot is initialized empty at ingestion and never written
afterwards: after any sequence of ingestion calls from the initial state,
every stored chunk still has an empty annotation slot. -/
theorem ws_session_frame :
    (∀ (st : Store) (cid : Nat) (goalQ maxTokQ : Option (List Char))
       (outcome : ModelOutcome),
       (ws_annotations st cid goalQ maxTokQ outcome).store = st) ∧
    ∀ calls : List IngestCall,
      ((runCalls initStore calls).chunks.all (fun p => p.2.annot.isEmpty)) = true := by
  constructor
  · intro st cid goalQ maxTokQ outcome
    unfold ws_annotations
    cases hc : dictGet st.chunks cid with
    | none => rfl
    | some chunk =>
      dsimp only
      cases hp : pyInt (maxTokQ.getD ("256".data)) with
      | none => rfl
      | some v =>
        dsimp only
        cases ha : get_adjacent_texts st cid with
        | none => rfl
        | some pn =>
          obtain ⟨p, n⟩ := pn
          cases outcome <;> rfl
  · intro calls
    have hgen : ∀ (cs : List IngestCall) (st : Store),
        st.chunks.all (fun p => p.2.annot.isEmpty) = true →
        ((runCalls st cs).chunks.all (fun p => p.2.annot.isEmpty)) = true := by
      intro cs
      induction cs with
      | nil => intro st h; exact h
      | cons c cs' ih =>
        intro st h
        exact ih _ (ingest_annot_empty c st h)
    exact hgen calls initStore rfl

/-- Claim C2 (amended): on a text shaped `pre ++ START-marker ++ body ++
END-marker ++ tail` (pieces star-free, marker title and footer tail
non-empty), `clean_gutenberg` removes the header marker region itself — the
literal, the lazily-matched title, the closing `***` — while the text BEFORE
the marker survives, removes everything from the footer literal onward, and
trims whitespace: the result is `strip(pre ++ body)`. -/
theorem clean_gutenberg_behavior (pre mid body tail : List Char)
    (hpre : noStar pre) (hmid : noStar mid) (hmne : mid ≠ [])
    (hbody : noStar body) (htail : noStar tail) (htne : tail ≠ []) :
    clean_gutenberg
        (pre ++ (hdrLit ++ (mid ++ (threeStars ++ (body ++ (ftrLit ++ tail)))))) =
      pyStrip (pre ++ body) := by
  unfold clean_gutenberg
  rw [headerSub_shape pre mid body tail hpre hmid hmne hbody htail]
  rw [footerSub_nonstar_append pre _ hpre, footerSub_nonstar_append body _ hbody]
  rw [footerSub_cut tail htne]
  simp

/-- Witness for C2 (amended): a concrete instantiation; the "PRE" before the
header marker is retained, so the cleaned text is `strip("PRE" ++ "BODY")`. -/
theorem clean_gutenberg_behavior_witness :
    clean_gutenberg
        ("PRE".data ++ (hdrLit ++ (" A ".data ++ (threeStars ++
          ("BODY".data ++ (ftrLit ++ " X".data)))))) =
      pyStrip ("PRE".data ++ "BODY".data) :=
  clean_gutenberg_behavior ("PRE".data) (" A ".data) ("BODY".data) (" X".data)
    (by decide) (by decide) (by decide) (by decide) (by decide) (by decide)

/-- A concrete Gutenberg-shaped input with text before the START marker. -/
def gutenExInput : List Char :=
  ("PRE*** START OF THIS PROJECT GUTENBERG EBOOK A ***BODY*** END OF THIS PROJECT GUTENBERG EBOOK!!").data

/-- Counterexample for C2 as stated: the claim says everything up to and
including the START marker is stripped, so the result could not begin with
the pre-marker text "PRE" and would be "BODY"; the code yields "PREBODY" —
`re.sub` removes only the matched region, and the header is matched lazily,
not greedily. -/
theorem clean_gutenberg_cex :
    clean_gutenberg gutenExInput = "PREBODY".data ∧
    isPre ("PRE".data) (clean_gutenberg gutenExInput) = true ∧
    clean_gutenberg gutenExInput ≠ "BODY".data := by
  refine ⟨by decide, by decide, by decide⟩

/-- The assembled f-string, re-expressed with its newline structure explicit
(definitionally equal: the literals only get split at their newlines). -/
theorem promptRaw_shape (P T N G : List Char) :
    promptRaw P T N G =
      "=== CONTEXT BEFORE ===".data ++ '\n' ::
        (P ++ '\n' :: '\n' ::
          ("=== BEGIN SECTION TO EXPLICATE ===".data ++ '\n' ::
            (T ++ '\n' ::
              ("=== END SECTION TO EXPLICATE ===".data ++ '\n' :: '\n' ::
                ("=== CONTEXT AFTER ===".data ++ '\n' ::
                  (N ++ '\n' :: '\n' ::
                    ("=== TASK ===".data ++ '\n' ::
                      (G ++ '\n' :: [])))))))) := by
  unfold promptRaw
  simp only [List.append_assoc]
  rfl

/-- When none of the four inserted texts contains a whitespace-only line, the
dedent blanking step leaves the assembled prompt unchanged. -/
theorem blank_promptRaw (P T N G : List Char)
    (hP : blankWsOnly P = P) (hT : blankWsOnly T = T)
    (hN : blankWsOnly N = N) (hG : blankWsOnly G = G) :
    blankWsOnly (promptRaw P T N G) = promptRaw P T N G := by
  have c1 : blankWsOnly ("=== CONTEXT BEFORE ===".data) = "=== CONTEXT BEFORE ===".data := by
    decide
  have c2 : blankWsOnly ("=== BEGIN SECTION TO EXPLICATE ===".data) =
      "=== BEGIN SECTION TO EXPLICATE ===".data := by decide
  have c3 : blankWsOnly ("=== END SECTION TO EXPLICATE ===".data) =
      "=== END SECTION TO EXPLICATE ===".data := by decide
  have c4 : blankWsOnly ("=== CONTEXT AFTER ===".data) = "=== CONTEXT AFTER ===".data := by
    decide
  have c5 : blankWsOnly ("=== TASK ===".data) = "=== TASK ===".data := by decide
  rw [promptRaw_shape]
  simp only [blankWsOnly_append_nl, blankWsOnly_cons_nl, blankWsOnly_nil]
  rw [hP, hT, hN, hG, c1, c2, c3, c4, c5]

/-- Under the same hypotheses the whole dedent is the identity on the
assembled prompt (its first line starts with `'='`, so the margin is empty). -/
theorem userMessage_eq_raw (P T N G : List Char)
    (hP : blankWsOnly P = P) (hT : blankWsOnly T = T)
    (hN : blankWsOnly N = N) (hG : blankWsOnly G = G) :
    userMessage P T N G = promptRaw P T N G := by
  have hblank := blank_promptRaw P T N G hP hT hN hG
  have hcr : blankWsOnly (promptRaw P T N G) = '=' ::
      ("== CONTEXT BEFORE ===".data ++ '\n' ::
        (P ++ '\n' :: '\n' ::
          ("=== BEGIN SECTION TO EXPLICATE ===".data ++ '\n' ::
            (T ++ '\n' ::
              ("=== END SECTION TO EXPLICATE ===".data ++ '\n' :: '\n' ::
                ("=== CONTEXT AFTER ===".data ++ '\n' ::
                  (N ++ '\n' :: '\n' ::
                    ("=== TASK ===".data ++ '\n' ::
                      (G ++ '\n' :: []))))))))) := by
    rw [hblank, promptRaw_shape]
    rfl
  unfold userMessage
  rw [pyDedent_eq_blank _ '=' _ hcr (by decide) (by decide), hblank]

/-- Claim C3 (amended): whenever none of `P`, `T`, `N`, `G` contains a line
consisting solely of spaces/tabs (so the dedent normalization leaves them
intact), the assembled user message contains, in order: `P`, then `T` wrapped
between the literal markers `BEGIN SECTION TO EXPLICATE` and
`END SECTION TO EXPLICATE`, then `N`, then `G`. -/
theorem prompt_framing_ok (P T N G : List Char)
    (hP : blankWsOnly P = P) (hT : blankWsOnly T = T)
    (hN : blankWsOnly N = N) (hG : blankWsOnly G = G) :
    ∃ y0 y1 y2 y3 y4 y5 y6,
      userMessage P T N G =
        y0 ++ (P ++ (y1 ++ ("BEGIN SECTION TO EXPLICATE".data ++ (y2 ++ (T ++ (y3 ++
          ("END SECTION TO EXPLICATE".data ++ (y4 ++ (N ++ (y5 ++ (G ++ y6))))))))))) := by
  refine ⟨"=== CONTEXT BEFORE ===\n".data, "\n\n=== ".data, " ===\n".data, "\n=== ".data,
    " ===\n\n=== CONTEXT AFTER ===\n".data, "\n\n=== TASK ===\n".data, "\n".data, ?_⟩
  rw [userMessage_eq_raw P T N G hP hT hN hG, promptRaw_shape]
  rfl

/-- Witness for C3 (amended): single-line pieces. -/
theorem prompt_framing_ok_witness :
    ∃ y0 y1 y2 y3 y4 y5 y6,
      userMessage ("p".data) ("t".data) ("n".data) ("g".data) =
        y0 ++ ("p".data ++ (y1 ++ ("BEGIN SECTION TO EXPLICATE".data ++ (y2 ++ ("t".data ++ (y3 ++
          ("END SECTION TO EXPLICATE".data ++ (y4 ++ ("n".data ++ (y5 ++ ("g".data ++ y6))))))))))) :=
  prompt_framing_ok ("p".data) ("t".data) ("n".data) ("g".data)
    (by decide) (by decide) (by decide) (by decide)

/-- Counterexample for C3 as stated: with previous-chunk text "a\n \nb" — it
contains a whitespace-only line — the dedent inside the session blanks that
line, so the assembled user message does not contain `P` literally and the
claimed in-order decomposition does not exist. -/
theorem prompt_framing_cex :
    ¬ ∃ y0 y1 y2 y3 y4 y5 y6,
      userMessage ("a\n \nb".data) ("t".data) ("n".data) ("g".data) =
        y0 ++ ("a\n \nb".data ++ (y1 ++ ("BEGIN SECTION TO EXPLICATE".data ++ (y2 ++
          ("t".data ++ (y3 ++ ("END SECTION TO EXPLICATE".data ++ (y4 ++
            ("n".data ++ (y5 ++ ("g".data ++ y6))))))))))) := by
  rintro ⟨y0, y1, y2, y3, y4, y5, y6, h⟩
  have hocc : occursB ("a\n \nb".data)
      (userMessage ("a\n \nb".data) ("t".data) ("n".data) ("g".data)) = true :=
    occursB_of_eq_append _ y0 _ _ h
  have hfalse : occursB ("a\n \nb".data)
      (userMessage ("a\n \nb".data) ("t".data) ("n".data) ("g".data)) = false := by decide
  rw [hfalse] at hocc
  cases hocc

/-- Well-formedness of one chunk reference: the id resolves in `CHUNKS`, the
chunk points back at the owning book, and its text is non-empty (the splitter
never produces empty chunk texts). -/
def chunkOkB (st : Store) (bid cid : Nat) : Bool :=
  match dictGet st.chunks cid with
  | none => false
  | some ch => decide (ch.book_id = bid) && decide (ch.text ≠ [])

theorem chunkOkB_elim (st : Store) (bid cid : Nat) (h : chunkOkB st bid cid = true) :
    ∃ ch, dictGet st.chunks cid = some ch ∧ ch.book_id = bid ∧ ch.text ≠ [] := by
  unfold chunkOkB at h
  cases hc : dictGet st.chunks cid with
  | none => rw [hc] at h; cases h
  | some ch =>
    rw [hc] at h
    rw [Bool.and_eq_true] at h
    exact ⟨ch, rfl, of_decide_eq_true h.1, of_decide_eq_true h.2⟩

/-- Claim C4: for a book `[c0, ..., cn]` in a well-formed store and a valid
index `k`, `get_adjacent_texts` on `c_k` succeeds and returns the pair
(text of `c_(k-1)`, text of `c_(k+1)`), where the first component is the
empty string exactly when `k = 0` and the second is the empty string exactly
when `k = n`. -/
theorem adjacent_texts_correct (st : Store) (bid : Nat) (b : Book) (k : Nat)
    (hk : k < b.chunks.length)
    (hb : dictGet st.books bid = some b)
    (hnd : b.chunks.Nodup)
    (hok : ∀ cid ∈ b.chunks, chunkOkB st bid cid = true) :
    ∃ p n, get_adjacent_texts st (b.chunks.get ⟨k, hk⟩) = some (p, n) ∧
      (0 < k → b.chunks[k - 1]?.bind
          (fun cid => (dictGet st.chunks cid).map Chunk.text) = some p) ∧
      (k + 1 < b.chunks.length → b.chunks[k + 1]?.bind
          (fun cid => (dictGet st.chunks cid).map Chunk.text) = some n) ∧
      (p = [] ↔ k = 0) ∧
      (n = [] ↔ k = b.chunks.length - 1) := by
  have hmem := List.get_mem b.chunks k hk
  obtain ⟨ch, hch, hbid, _⟩ := chunkOkB_elim st bid _ (hok _ hmem)
  have hidx : pyIndex b.chunks (b.chunks.get ⟨k, hk⟩) = some k :=
    pyIndex_nodup_get _ _ hk hnd
  unfold get_adjacent_texts
  rw [hch]
  dsimp only
  rw [hbid, hb]
  dsimp only
  rw [hidx]
  dsimp only
  by_cases h0 : 0 < k
  · have hklt : k - 1 < b.chunks.length := by omega
    have hge : b.chunks[k - 1]? = some b.chunks[k - 1] :=
      List.getElem?_eq_getElem hklt
    obtain ⟨pc, hpc, _, hpct⟩ :=
      chunkOkB_elim st bid _ (hok _ (List.getElem_mem hklt))
    rw [if_pos h0, hge]
    dsimp only
    rw [hpc]
    dsimp only
    by_cases h1 : k < b.chunks.length - 1
    · have hklt2 : k + 1 < b.chunks.length := by omega
      have hge2 : b.chunks[k + 1]? = some b.chunks[k + 1] :=
        List.getElem?_eq_getElem hklt2
      obtain ⟨nc, hnc, _, hnct⟩ :=
        chunkOkB_elim st bid _ (hok _ (List.getElem_mem hklt2))
      rw [if_pos h1, hge2]
      dsimp only
      rw [hnc]
      dsimp only
      refine ⟨pc.text, nc.text, rfl, ?_, ?_, ?_, ?_⟩
      · intro _
        simp [hpc]
      · intro _
        simp [hnc]
      · constructor
        · intro he
          exact absurd he hpct
        · intro hz
          omega
      · constructor
        · intro he
          exact absurd he hnct
        · intro hz
          omega
    · rw [if_neg h1]
      dsimp only
      refine ⟨pc.text, [], rfl, ?_, ?_, ?_, ?_⟩
      · intro _
        simp [hpc]
      · intro h2
        exact absurd (by omega : k < b.chunks.length - 1) h1
      · constructor
        · intro he
          exact absurd he hpct
        · intro hz
          omega
      · exact iff_of_true rfl (by omega)
  · have hk0 : k = 0 := by omega
    rw [if_neg h0]
    dsimp only
    by_cases h1 : k < b.chunks.length - 1
    · have hklt2 : k + 1 < b.chunks.length := by omega
      have hge2 : b.chunks[k + 1]? = some b.chunks[k + 1] :=
        List.getElem?_eq_getElem hklt2
      obtain ⟨nc, hnc, _, hnct⟩ :=
        chunkOkB_elim st bid _ (hok _ (List.getElem_mem hklt2))
      rw [if_pos h1, hge2]
      dsimp only
      rw [hnc]
      dsimp only
      refine ⟨[], nc.text, rfl, ?_, ?_, ?_, ?_⟩
      · intro h2
        exact absurd h2 h0
      · intro _
        simp [hnc]
      · exact iff_of_true rfl hk0
      · constructor
        · intro he
          exact absurd he hnct
        · intro hz
          omega
    · rw [if_neg h1]
      dsimp only
      refine ⟨[], [], rfl, ?_, ?_, ?_, ?_⟩
      · intro h2
        exact absurd h2 h0
      · intro h2
        exact absurd (by omega : k < b.chunks.length - 1) h1
      · exact iff_of_true rfl hk0
      · exact iff_of_true rfl (by omega)

/-- Helper store for the adjacency witness: one book with three chunks. -/
def storeThree : Store :=
  ⟨[(1, ⟨"u".data, "u".data, [1, 2, 3]⟩)],
   [(1, ⟨1, "A".data, []⟩), (2, ⟨1, "B".data, []⟩), (3, ⟨1, "C".data, []⟩)], 2, 4⟩

/-- Witness for C4: the middle chunk of a three-chunk book. -/
theorem adjacent_texts_correct_witness :
    ∃ p n, get_adjacent_texts storeThree
        ((Book.chunks ⟨"u".data, "u".data, [1, 2, 3]⟩).get ⟨1, by decide⟩) = some (p, n) ∧
      (0 < 1 → (Book.chunks ⟨"u".data, "u".data, [1, 2, 3]⟩)[1 - 1]?.bind
          (fun cid => (dictGet storeThree.chunks cid).map Chunk.text) = some p) ∧
      (1 + 1 < (Book.chunks ⟨"u".data, "u".data, [1, 2, 3]⟩).length →
        (Book.chunks ⟨"u".data, "u".data, [1, 2, 3]⟩)[1 + 1]?.bind
          (fun cid => (dictGet storeThree.chunks cid).map Chunk.text) = some n) ∧
      (p = [] ↔ 1 = 0) ∧
      (n = [] ↔ 1 = (Book.chunks ⟨"u".data, "u".data, [1, 2, 3]⟩).length - 1) :=
  adjacent_texts_correct storeThree 1 ⟨"u".data, "u".data, [1, 2, 3]⟩ 1
    (by decide) rfl (by decide) (by decide)

/-- What one run of the chunk-append loop does to the store: the book counter
is untouched, the chunk counter advances by one per chunk, the set of book
keys is unchanged, the target book gains exactly the freshly assigned
consecutive ids, previously stored chunks are untouched, and the new ids map
to the chunk texts in order (with the back-reference and an empty annotation
slot). -/
theorem ingestLoop_spec (ts : List (List Char)) (st : Store) (bid : Nat) (b : Book)
    (hb : dictGet st.books bid = some b)
    (hfresh : ∀ p ∈ st.chunks, p.1 < st.nextChunk) :
    (ingestLoop st bid ts).nextBook = st.nextBook ∧
    (ingestLoop st bid ts).nextChunk = st.nextChunk + ts.length ∧
    (ingestLoop st bid ts).books.map Prod.fst = st.books.map Prod.fst ∧
    dictGet (ingestLoop st bid ts).books bid =
      some ⟨b.url, b.title, b.chunks ++ List.range' st.nextChunk ts.length⟩ ∧
    (ingestLoop st bid ts).chunks.map Prod.fst =
      st.chunks.map Prod.fst ++ List.range' st.nextChunk ts.length ∧
    (∀ j, j < st.nextChunk →
      dictGet (ingestLoop st bid ts).chunks j = dictGet st.chunks j) ∧
    (∀ i (hi : i < ts.length),
      dictGet (ingestLoop st bid ts).chunks (st.nextChunk + i) =
        some ⟨bid, ts.get ⟨i, hi⟩, []⟩) := by
  induction ts generalizing st b with
  | nil =>
    refine ⟨rfl, by simp [ingestLoop], rfl, ?_, by simp [ingestLoop], ?_, ?_⟩
    · simpa [ingestLoop] using hb
    · intro j _
      rfl
    · intro i hi
      simp at hi
  | cons t ts' ih =>
    have hne : ∀ p ∈ st.chunks, p.1 ≠ st.nextChunk :=
      fun p hp => Nat.ne_of_lt (hfresh p hp)
    have hset : dictSet st.chunks st.nextChunk ⟨bid, t, []⟩ =
        st.chunks ++ [(st.nextChunk, ⟨bid, t, []⟩)] := dictSet_fresh _ _ _ hne
    have hb' : dictGet (dictModify st.books bid
        (fun bb => ⟨bb.url, bb.title, bb.chunks ++ [st.nextChunk]⟩)) bid =
        some ⟨b.url, b.title, b.chunks ++ [st.nextChunk]⟩ :=
      dictGet_modify_eq st.books bid _ b hb
    have hfresh' : ∀ p ∈ st.chunks ++ [(st.nextChunk, (⟨bid, t, []⟩ : Chunk))],
        p.1 < st.nextChunk + 1 := by
      intro p hp
      rcases List.mem_append.mp hp with hold | hnew
      · exact Nat.lt_succ_of_lt (hfresh p hold)
      · rcases List.mem_singleton.mp hnew with rfl
        exact Nat.lt_succ_self _
    unfold ingestLoop
    dsimp only
    rw [hset]
    obtain ⟨ihNB, ihNC, ihBK, ihBG, ihCK, ihOld, ihNew⟩ :=
      ih { st with
            nextChunk := st.nextChunk + 1
            chunks := st.chunks ++ [(st.nextChunk, ⟨bid, t, []⟩)]
            books := dictModify st.books bid
              (fun bb => ⟨bb.url, bb.title, bb.chunks ++ [st.nextChunk]⟩) }
        ⟨b.url, b.title, b.chunks ++ [st.nextChunk]⟩ hb' hfresh'
    dsimp only at ihNB ihNC ihBK ihBG ihCK ihOld ihNew
    refine ⟨ihNB, ?_, ?_, ?_, ?_, ?_, ?_⟩
    · rw [ihNC]
      simp only [List.length_cons]
      omega
    · rw [ihBK]
      exact dictGet_modify_map_fst st.books bid _
    · rw [ihBG]
      simp only [List.length_cons, List.range'_succ st.nextChunk ts'.length 1]
      simp [List.append_assoc]
    · rw [ihCK]
      simp only [List.map_append, List.length_cons,
        List.range'_succ st.nextChunk ts'.length 1]
      simp [List.append_assoc]
    · intro j hj
      rw [ihOld j (Nat.lt_succ_of_lt hj)]
      exact dictGet_append_left _ _ _ _ (Nat.ne_of_lt hj)
    · intro i hi
      cases i with
      | zero =>
        exact (ihOld st.nextChunk (Nat.lt_succ_self _)).trans
          (dictGet_append_right _ _ _ hne)
      | succ i' =>
        have hi' : i' < ts'.length := by simpa using hi
        have := ihNew i' hi'
        have harith : st.nextChunk + 1 + i' = st.nextChunk + (i' + 1) := by omega
        rw [harith] at this
        exact this

/-- Claim C6 (amended): a fetch-collaborator failure (non-success status,
non-text content type, transport fault) happens before any store mutation, so
no Book and no Chunk record created by the call exists afterwards; when every
step succeeds the full chunk sequence is stored under fresh consecutive ids.
(A failure AFTER the fetch — the splitter/tokenizer — is not all-or-nothing:
see the counterexample, which exhibits the left-behind Book record.) -/
theorem ingest_fetch_atomicity :
    (∀ (st : Store) (call : IngestCall) (e : List Char),
      call.fetch = Except.error e → ingest st call = (st, Except.error e)) ∧
    (∀ (st : Store) (call : IngestCall) (raw : List Char) (ts : List (List Char)),
      call.fetch = Except.ok raw →
      call.splitter (clean_gutenberg raw) = Except.ok ts →
      (∀ p ∈ st.books, p.1 < st.nextBook) →
      (∀ p ∈ st.chunks, p.1 < st.nextChunk) →
      (ingest st call).2 = Except.ok (st.nextBook, List.range' st.nextChunk ts.length) ∧
      dictGet (ingest st call).1.books st.nextBook =
        some ⟨call.url, basename call.url, List.range' st.nextChunk ts.length⟩ ∧
      (∀ i (hi : i < ts.length),
        dictGet (ingest st call).1.chunks (st.nextChunk + i) =
          some ⟨st.nextBook, ts.get ⟨i, hi⟩, []⟩)) := by
  constructor
  · intro st call e hfe
    unfold ingest
    rw [hfe]
  · intro st call raw ts hfo hsp hbk hck
    have hbne : ∀ p ∈ st.books, p.1 ≠ st.nextBook :=
      fun p hp => Nat.ne_of_lt (hbk p hp)
    have hbset : dictSet st.books st.nextBook ⟨call.url, basename call.url, []⟩ =
        st.books ++ [(st.nextBook, ⟨call.url, basename call.url, []⟩)] :=
      dictSet_fresh _ _ _ hbne
    have hb1 : dictGet
        (st.books ++ [(st.nextBook, (⟨call.url, basename call.url, []⟩ : Book))])
        st.nextBook = some ⟨call.url, basename call.url, []⟩ :=
      dictGet_append_right _ _ _ hbne
    unfold ingest
    rw [hfo]
    dsimp only
    rw [hsp]
    dsimp only
    rw [hbset]
    obtain ⟨_, _, _, ihBG, _, _, ihNew⟩ :=
      ingestLoop_spec ts
        { st with
          nextBook := st.nextBook + 1
          books := st.books ++ [(st.nextBook, ⟨call.url, basename call.url, []⟩)] }
        st.nextBook ⟨call.url, basename call.url, []⟩ hb1 hck
    dsimp only at ihBG ihNew
    rw [ihBG]
    dsimp only
    refine ⟨by simp, by simpa using ihBG, ?_⟩
    intro i hi
    exact ihNew i hi

/-- The ids a fetch-then-split failure leaves behind: concrete witness and
counterexample inputs. -/
def fetchFailCall : IngestCall :=
  ⟨"u".data, Except.error ("err".data), fun _ => Except.ok []⟩

/-- An ingestion whose fetch succeeds and whose splitter yields two chunks. -/
def okCall : IngestCall :=
  ⟨"a/b".data, Except.ok ("RAW".data), fun _ => Except.ok ["X".data, "Y".data]⟩

/-- An ingestion whose fetch succeeds but whose splitter (tokenizer) raises. -/
def splitFailCall : IngestCall :=
  ⟨"u".data, Except.ok ("RAW".data), fun _ => Except.error ("tokenizer down".data)⟩

/-- Witness for C6 (amended): a failed fetch leaves the initial store intact;
a fully successful call on the initial store yields book 1 with chunk ids
`[1, 2]` and both chunk records stored. -/
theorem ingest_fetch_atomicity_witness :
    ingest initStore fetchFailCall = (initStore, Except.error ("err".data)) ∧
    (ingest initStore okCall).2 = Except.ok (1, List.range' 1 2) ∧
    dictGet (ingest initStore okCall).1.books 1 =
      some ⟨"a/b".data, basename ("a/b".data), List.range' 1 2⟩ ∧
    dictGet (ingest initStore okCall).1.chunks (1 + 0) =
      some ⟨1, ["X".data, "Y".data].get ⟨0, by decide⟩, []⟩ := by
  have h1 := ingest_fetch_atomicity.1 initStore fetchFailCall ("err".data) rfl
  have h2 := ingest_fetch_atomicity.2 initStore okCall ("RAW".data)
    ["X".data, "Y".data] rfl rfl (by decide) (by decide)
  exact ⟨h1, h2.1, h2.2.1, h2.2.2 0 (by decide)⟩

/-- Counterexample for C6 as stated ("if ANY step fails, no Book record
exists afterwards"): when the splitter fails after the fetch, the call fails
but the Book record it created (id 1, empty chunk list) remains in the
Store. -/
theorem ingest_partial_cex :
    (ingest initStore splitFailCall).2 = Except.error ("tokenizer down".data) ∧
    dictGet (ingest initStore splitFailCall).1.books 1 =
      some ⟨"u".data, "u".data, []⟩ := ⟨rfl, rfl⟩

/-- The id invariant: at every reachable state the book keys are exactly
`1, ..., nextBook - 1` in creation order, and likewise for chunks. -/
def IdsInv (st : Store) : Prop :=
  st.books.map Prod.fst = List.range' 1 (st.nextBook - 1) ∧
  st.chunks.map Prod.fst = List.range' 1 (st.nextChunk - 1) ∧
  1 ≤ st.nextBook ∧ 1 ≤ st.nextChunk

theorem range'_snoc (m : Nat) :
    List.range' 1 m ++ [m + 1] = List.range' 1 (m + 1) := by
  have hc := List.range'_append_1 1 m 1
  have h1 : List.range' (1 + m) 1 = [1 + m] := rfl
  rw [h1] at hc
  have h2 : 1 + m = m + 1 := by omega
  rw [h2] at hc
  exact hc

theorem ingest_preserves_idsInv (st : Store) (call : IngestCall) (h : IdsInv st) :
    IdsInv (ingest st call).1 := by
  obtain ⟨hbk, hck, hb1, hc1⟩ := h
  have hbklt : ∀ p ∈ st.books, p.1 < st.nextBook := by
    intro p hp
    have hm : p.1 ∈ st.books.map Prod.fst := List.mem_map_of_mem _ hp
    rw [hbk] at hm
    have := List.mem_range'_1.mp hm
    omega
  have hcklt : ∀ p ∈ st.chunks, p.1 < st.nextChunk := by
    intro p hp
    have hm : p.1 ∈ st.chunks.map Prod.fst := List.mem_map_of_mem _ hp
    rw [hck] at hm
    have := List.mem_range'_1.mp hm
    omega
  have hbne : ∀ p ∈ st.books, p.1 ≠ st.nextBook :=
    fun p hp => Nat.ne_of_lt (hbklt p hp)
  have hbset : dictSet st.books st.nextBook ⟨call.url, basename call.url, []⟩ =
      st.books ++ [(st.nextBook, ⟨call.url, basename call.url, []⟩)] :=
    dictSet_fresh _ _ _ hbne
  have hbooks1 : (st.books ++
      [(st.nextBook, (⟨call.url, basename call.url, []⟩ : Book))]).map Prod.fst =
      List.range' 1 (st.nextBook + 1 - 1) := by
    rw [List.map_append, hbk]
    have he : st.nextBook - 1 + 1 = st.nextBook + 1 - 1 := by omega
    have hs := range'_snoc (st.nextBook - 1)
    have he2 : st.nextBook - 1 + 1 = st.nextBook := by omega
    rw [he2] at hs
    simp only [List.map_cons, List.map_nil]
    rw [hs, ← he, he2]
  unfold ingest
  cases hfe : call.fetch with
  | error e => exact ⟨hbk, hck, hb1, hc1⟩
  | ok raw =>
    dsimp only
    cases hsp : call.splitter (clean_gutenberg raw) with
    | error e =>
      dsimp only
      rw [hbset]
      exact ⟨hbooks1, hck, by dsimp only; omega, hc1⟩
    | ok ts =>
      dsimp only
      rw [hbset]
      have hb1g : dictGet
          (st.books ++ [(st.nextBook, (⟨call.url, basename call.url, []⟩ : Book))])
          st.nextBook = some ⟨call.url, basename call.url, []⟩ :=
        dictGet_append_right _ _ _ hbne
      obtain ⟨ihNB, ihNC, ihBK, _, ihCK, _, _⟩ :=
        ingestLoop_spec ts
          { st with
            nextBook := st.nextBook + 1
            books := st.books ++ [(st.nextBook, ⟨call.url, basename call.url, []⟩)] }
          st.nextBook ⟨call.url, basename call.url, []⟩ hb1g hcklt
      dsimp only at ihNB ihNC ihBK ihCK
      have hmain : IdsInv (ingestLoop
          { st with
            nextBook := st.nextBook + 1
            books := st.books ++ [(st.nextBook, ⟨call.url, basename call.url, []⟩)] }
          st.nextBook ts) := by
        refine ⟨?_, ?_, ?_, ?_⟩
        · rw [ihBK, ihNB, hbooks1]
        · rw [ihCK, ihNC, hck]
          have hr : List.range' 1 (st.nextChunk - 1) ++
              List.range' st.nextChunk ts.length =
              List.range' 1 (st.nextChunk + ts.length - 1) := by
            have ha := List.range'_append_1 1 (st.nextChunk - 1) ts.length
            have he : 1 + (st.nextChunk - 1) = st.nextChunk := by omega
            rw [he] at ha
            rw [ha]
            congr 1
            omega
          rw [hr]
        · rw [ihNB]
          omega
        · rw [ihNC]
          omega
      cases hg : dictGet (ingestLoop
          { st with
            nextBook := st.nextBook + 1
            books := st.books ++ [(st.nextBook, ⟨call.url, basename call.url, []⟩)] }
          st.nextBook ts).books st.nextBook with
      | none => exact hmain
      | some b => exact hmain

/-- Claim C8: book and chunk identifiers come from two independent counters
starting at 1: after every sequence of ingestion calls from process start,
the stored book keys are exactly `1, 2, ..., #books` in creation order and
the stored chunk keys exactly `1, 2, ..., #chunks` in creation order — never
reused, never reset, strictly increasing across assignments. -/
theorem store_ids_sequential :
    ∀ calls : List IngestCall,
      (runCalls initStore calls).books.map Prod.fst =
        List.range' 1 (runCalls initStore calls).books.length ∧
      (runCalls initStore calls).chunks.map Prod.fst =
        List.range' 1 (runCalls initStore calls).chunks.length := by
  intro calls
  have hgen : ∀ (cs : List IngestCall) (st : Store), IdsInv st → IdsInv (runCalls st cs) := by
    intro cs
    induction cs with
    | nil => intro st h; exact h
    | cons c cs' ih =>
      intro st h
      exact ih _ (ingest_preserves_idsInv st c h)
  obtain ⟨hbk, hck, _, _⟩ := hgen calls initStore ⟨rfl, rfl, Nat.le_refl 1, Nat.le_refl 1⟩
  constructor
  · have hlen : (runCalls initStore calls).books.length =
        (runCalls initStore calls).nextBook - 1 := by
      have h2 := congrArg List.length hbk
      simpa using h2
    rw [hbk, hlen]
  · have hlen : (runCalls initStore calls).chunks.length =
        (runCalls initStore calls).nextChunk - 1 := by
      have h2 := congrArg List.length hck
      simpa using h2
    rw [hck, hlen]
